import Mathlib

/-!
Verification of the staged music-import pipeline: a shallow embedding of the
content hasher (utils/file_id.py), the reconciler (modules/merge.py), the
relational loader (modules/load.py) and the stage orchestrator
(import_music.py), with theorems settling the frozen claims about them.
-/

set_option maxHeartbeats 1000000

namespace MusicOrg

/-- JSON values as Python's json.load decodes them: None, bool, number,
string, list, dict (a dict is an assoc list in insertion order). -/
inductive J where
  | jnull
  | jbool (b : Bool)
  | jnum (q : ℚ)
  | jstr (s : String)
  | jarr (xs : List J)
  | jobj (fields : List (String × J))

/-- Python truthiness of a decoded JSON value: None, False, 0, empty string,
empty list and empty dict are falsy. -/
def truthy : J → Bool
  | .jnull => false
  | .jbool b => b
  | .jnum q => q != 0
  | .jstr s => s != ""
  | .jarr xs => !xs.isEmpty
  | .jobj fs => !fs.isEmpty

/-- Lookup of a key in a decoded dict (first binding wins, as in a Python
dict, whose keys are unique). -/
def jLookup (k : String) : List (String × J) → Option J
  | [] => none
  | (k', v) :: t => if k' = k then some v else jLookup k t

/-- Python's obj.get(k): None when the key is missing. -/
def jGetD (o : List (String × J)) (k : String) : J :=
  (jLookup k o).getD .jnull

/-- Python's `a or b` on decoded values. -/
def pyOr (a b : J) : J :=
  if truthy a then a else b

/-- Field access on a JSON value that may not be a dict. -/
def objGet (v : J) (k : String) : Option J :=
  match v with
  | .jobj fs => jLookup k fs
  | _ => none

/-! ## Reconciler: modules/merge.py -/

/-- merge.safe_get_dict: the loaded JSON when it is a dict, None otherwise
(a failed load is already None and stays None). -/
def safe_get_dict : Option J → Option (List (String × J))
  | some (.jobj fs) => some fs
  | _ => none

/-- merge.safe_get_file_hash: extract file.hash_sha256 when the document is a
dict, its file entry is a dict, and the value is a string; None otherwise. -/
def safe_get_file_hash : J → Option String
  | .jobj fields =>
    match jLookup "file" fields with
    | some (.jobj fileFields) =>
      match jLookup "hash_sha256" fileFields with
      | some (.jstr s) => some s
      | _ => none
    | _ => none
  | _ => none

/-- Python truthiness of an Optional[str]: None and the empty string are
falsy. -/
def optStrTruthy : Option String → Bool
  | none => false
  | some s => s != ""

/-- The mismatch test of merge.process_track:
`if hash_spot and hash_audio and hash_spot != hash_audio`. -/
def hashMismatchGuard (hSpot hAud : Option String) : Bool :=
  optStrTruthy hSpot && optStrTruthy hAud && (hSpot != hAud)

/-- The file section of a stage document: spotify.get("file") when that is a
dict, an empty dict otherwise (build_final_json's normalisation). -/
def fileSectionOf (o : List (String × J)) : List (String × J) :=
  match jLookup "file" o with
  | some (.jobj fs) => fs
  | _ => []

/-- build_final_json's file block: start from a copy of the MATCH (spotify)
file section, then append each ANALYZE (audio) file field whose key is not
already present. -/
def mergeFileInfo (spot aud : List (String × J)) : List (String × J) :=
  aud.foldl
    (fun acc kv => if (jLookup kv.1 acc).isSome then acc else acc ++ [kv])
    spot

/-- merge.build_final_json: the canonical (final) document built from the
spotify (MATCH) and audio (ANALYZE) documents. `now` stands for the
datetime.utcnow timestamp, the two paths for the source sidecar paths. -/
def build_final_json (spot aud : List (String × J))
    (now audioJsonPath spotifyJsonPath : String) : J :=
  .jobj
    [ ("schema", .jobj
        [ ("type", .jstr "track_final"),
          ("version", .jnum 1),
          ("sources", .jobj
            [ ("spotify", jGetD spot "schema"),
              ("audio", jGetD aud "schema") ]) ]),
      ("file", .jobj (mergeFileInfo (fileSectionOf spot) (fileSectionOf aud))),
      ("local_tags", pyOr (jGetD spot "local_tags")
        (pyOr (jGetD aud "local_tags") (.jobj []))),
      ("spotify", pyOr (jGetD spot "spotify") (.jobj [])),
      ("match", pyOr (jGetD spot "match") (.jobj [])),
      ("audio", pyOr (jGetD aud "audio") (.jobj [])),
      ("features", pyOr (jGetD aud "features") (.jobj [])),
      ("genre", pyOr (jGetD aud "genre") (.jobj [])),
      ("mood", pyOr (jGetD aud "mood") (.jobj [])),
      ("instruments", pyOr (jGetD aud "instruments") (.jobj [])),
      ("merge", .jobj
        [ ("created_at", .jstr now),
          ("audio_json", .jstr audioJsonPath),
          ("spotify_json", .jstr spotifyJsonPath) ]) ]

/-- Outcome of merge.process_track (its status string). -/
inductive MergeStatus where
  | merged
  | skippedFinalExists
  | missingAudioJson
  | missingSpotifyJson
  | hashMismatch
  | mergeError
  deriving DecidableEq, Repr

/-- State merge.process_track sees for one track. A sidecar is either absent
(none), present but unreadable or unparsable (some none), or parsed to a
JSON value (some (some v)); load_json's retry of a string payload is folded
into the parse result. finalBefore is the final sidecar's current content. -/
structure MergeInput where
  audioJson : Option (Option J)
  spotifyJson : Option (Option J)
  finalBefore : Option J
  force : Bool
  dryRun : Bool

/-- merge.process_track: returns the status and the final sidecar's content
afterwards. The final write is modelled as succeeding (its IO-failure branch
returns the error status with the file system unspecified). -/
def merge_process_track (inp : MergeInput)
    (now audioJsonPath spotifyJsonPath : String) : MergeStatus × Option J :=
  if inp.finalBefore.isSome && !inp.force then
    (.skippedFinalExists, inp.finalBefore)
  else
    match inp.audioJson with
    | none => (.missingAudioJson, inp.finalBefore)
    | some audRaw =>
      match inp.spotifyJson with
      | none => (.missingSpotifyJson, inp.finalBefore)
      | some spotRaw =>
        match safe_get_dict spotRaw, safe_get_dict audRaw with
        | some spot, some aud =>
          if hashMismatchGuard (safe_get_file_hash (.jobj spot))
              (safe_get_file_hash (.jobj aud)) then
            (.hashMismatch, inp.finalBefore)
          else
            let finalObj := build_final_json spot aud now audioJsonPath spotifyJsonPath
            if inp.dryRun then (.merged, inp.finalBefore)
            else (.merged, some finalObj)
        | _, _ => (.mergeError, inp.finalBefore)

/-! ## Identity hasher: utils/file_id.py -/

/-- Splitting a byte list into successive chunks of n+1 bytes (n+1 so the
chunk size is positive by construction); models the
`iter(lambda: f.read(1024 * 1024), b"")` read loop. -/
def chunksSucc (n : Nat) : List α → List (List α)
  | [] => []
  | a :: l => ((a :: l).take (n + 1)) :: chunksSucc n ((a :: l).drop (n + 1))
  termination_by l => l.length
  decreasing_by simp [List.length_drop]; omega

/-- compute_file_hash reads in 1 MB chunks. -/
def CHUNK_BYTES : Nat := 1024 * 1024

/-- The chunk sequence compute_file_hash feeds to the digest for a file with
the given byte content. -/
def fileChunks (content : List Nat) : List (List Nat) :=
  chunksSucc (CHUNK_BYTES - 1) content

/-- The byte stream a hashlib digest has absorbed after the update calls, one
per chunk: update appends the chunk's bytes to the absorbed stream. -/
def absorbChunks (chunks : List (List Nat)) : List Nat :=
  chunks.foldl (· ++ ·) []

/-- utils.file_id.compute_file_hash: stream the file at `path` through the
digest chunk by chunk and return its hex digest. The digest algorithm is an
arbitrary function of the absorbed byte stream; `fs` gives each path's byte
content. -/
def compute_file_hash (digest : List Nat → String)
    (fs : String → List Nat) (path : String) : String :=
  digest (absorbChunks (fileChunks (fs path)))

/-! ## Relational loader: modules/load.py

The tracks table is a list of rows; a row is an assoc list from column name
to a stored value. The value type V is abstract (SQLite stores whatever
Python value the record carries); only equality on values is needed, for the
WHERE key = ? lookups. -/

/-- A row of the tracks table: column name to stored value, absent = NULL. -/
abbrev DbRow (V : Type) : Type := List (String × V)

/-- The tracks table. -/
abbrev DbTable (V : Type) : Type := List (DbRow V)

/-- Column read from a row. -/
def rowGet {V : Type} (r : DbRow V) (k : String) : Option V :=
  match r with
  | [] => none
  | (k', v) :: t => if k' = k then some v else rowGet t k

/-- Python dict assignment d[k] = v: overwrite in place, else append. -/
def rowSet {V : Type} [DecidableEq V] (r : DbRow V) (k : String) (v : V) : DbRow V :=
  if (rowGet r k).isSome then
    r.map (fun kv => if kv.1 = k then (k, v) else kv)
  else r ++ [(k, v)]

/-- Python d.setdefault(k, v). -/
def rowSetDefault {V : Type} (r : DbRow V) (k : String) (v : V) : DbRow V :=
  if (rowGet r k).isSome then r else r ++ [(k, v)]

/-- Python d.pop(k, None): remove the binding of k. -/
def rowDrop {V : Type} (r : DbRow V) (k : String) : DbRow V :=
  r.filter (fun kv => kv.1 != k)

/-- The WHERE key = val test of the SELECT and the UPDATE. -/
def rowMatchesKey {V : Type} [DecidableEq V] (key : String) (val : V) (r : DbRow V) : Bool :=
  rowGet r key == some val

/-- SELECT id FROM tracks WHERE key = val (fetchone: first matching row). -/
def findRow {V : Type} [DecidableEq V] (t : DbTable V) (key : String) (val : V) :
    Option (DbRow V) :=
  t.find? (rowMatchesKey key val)

/-- UPDATE ... SET c = ? for every column of d: set d's columns, left to
right, in a row. -/
def updateRow {V : Type} [DecidableEq V] (r : DbRow V) (d : DbRow V) : DbRow V :=
  d.foldl (fun acc kv => rowSet acc kv.1 kv.2) r

/-- load._upsert_track: look the key up; on a miss, INSERT the record with
added_at defaulted and updated_at set to now; on a hit, UPDATE the matching
rows with the record minus added_at and minus the key column, with
updated_at refreshed. Returns the new table and the status string. -/
def upsert_track {V : Type} [DecidableEq V] (t : DbTable V) (data : DbRow V)
    (key : String) (val : V) (now : V) (dry : Bool) : DbTable V × String :=
  match findRow t key val with
  | none =>
    let d := rowSet (rowSetDefault data "added_at" now) "updated_at" now
    (if dry then t else t ++ [d], if dry then "dry-run insert" else "inserted")
  | some _ =>
    let d := rowDrop (rowDrop (rowSet data "updated_at" now) "added_at") key
    (if d.isEmpty || dry then t
     else t.map (fun r => if rowMatchesKey key val r then updateRow r d else r),
     if dry then "dry-run update" else "updated")

/-- Number of rows located by the upsert key. -/
def countMatching {V : Type} [DecidableEq V] (t : DbTable V) (key : String) (val : V) : Nat :=
  (t.filter (rowMatchesKey key val)).length

/-- The `for k in (...): v = obj.get(k); if isinstance(v, str) and v: return v`
loops of load._infer_file_hash and _infer_file_path: first key bound to a
non-empty string. -/
def pickStr (o : List (String × J)) : List String → Option String
  | [] => none
  | k :: rest =>
    match jLookup k o with
    | some (.jstr s) => if s = "" then pickStr o rest else some s
    | _ => pickStr o rest

/-- load._infer_file_hash: a non-empty string under file_hash / hash_sha256 /
hash at the root, else under file.hash_sha256 / file.file_hash / file.hash. -/
def infer_file_hash (obj : List (String × J)) : Option String :=
  match pickStr obj ["file_hash", "hash_sha256", "hash"] with
  | some s => some s
  | none =>
    match jLookup "file" obj with
    | some (.jobj fileInfo) => pickStr fileInfo ["hash_sha256", "file_hash", "hash"]
    | _ => none

/-- load._infer_file_path: the CLI path itself when it is not a JSON file,
else a non-empty string at file.path. -/
def infer_file_path (obj : List (String × J)) (cliIsJson : Bool)
    (cliPath : String) : Option String :=
  if !cliIsJson then some cliPath
  else
    match jLookup "file" obj with
    | some (.jobj fileInfo) =>
      match jLookup "path" fileInfo with
      | some (.jstr s) => if s = "" then none else some s
      | _ => none
    | _ => none

/-- The upsert-key logic of load._build_record: the two SystemExit guards for
a present key column with no resolvable value (lines 155-163), then the
hash-first priority choice (lines 302-310). Resolution of the other columns
is elided: it sets only non-key row values and raises nothing. -/
def build_record_key (cols : List String) (obj : List (String × J))
    (cliIsJson : Bool) (cliPath : String) : Except String (String × String) :=
  let fileHash := infer_file_hash obj
  let filePath := infer_file_path obj cliIsJson cliPath
  if cols.contains "file_hash" && fileHash.isNone then
    .error "final JSON has no hash_sha256/file_hash usable for file_hash"
  else if cols.contains "file_path" && filePath.isNone then
    .error "cannot determine file_path from the CLI path or the JSON"
  else
    match cols.contains "file_hash", fileHash, cols.contains "file_path", filePath with
    | true, some h, _, _ => .ok ("file_hash", h)
    | _, _, true, some p => .ok ("file_path", p)
    | _, _, _, _ => .error "no upsert key (neither file_hash nor file_path available)"

/-- load.main's write path: determine the key from the final document, then
upsert the resolved record. A key-determination error propagates and the
table is left untouched. `strVal` embeds the key string into the stored
value domain. -/
def load_track {V : Type} [DecidableEq V] (t : DbTable V) (data : DbRow V)
    (cols : List String) (obj : List (String × J)) (cliIsJson : Bool)
    (cliPath : String) (strVal : String → V) (now : V) (dry : Bool) :
    DbTable V × Except String String :=
  match build_record_key cols obj cliIsJson cliPath with
  | .error e => (t, .error e)
  | .ok (k, v) =>
    let r := upsert_track t data k (strVal v) now dry
    (r.1, .ok r.2)

/-! ## Stage orchestrator: import_music.py

process_track drives MATCH, AUDIO (analyze), MERGE and LOAD for one track.
The sidecar file system is three optional modification times (none =
absent); the stage runners (in-process or subprocess calls) are opaque
behaviors that either succeed or raise an error message. -/

/-- The four pipeline stages. -/
inductive Stage where
  | smatch
  | saudio
  | smerge
  | sload
  deriving DecidableEq, Repr

/-- The source's stage label, as stored in TrackResult.failed_stage. -/
def stageName : Stage → String
  | .smatch => "MATCH"
  | .saudio => "AUDIO"
  | .smerge => "MERGE"
  | .sload => "LOAD"

/-- Pipeline position, for "downstream of". -/
def stageIdx : Stage → Nat
  | .smatch => 0
  | .saudio => 1
  | .smerge => 2
  | .sload => 3

/-- The hidden sidecars of one track: modification time when present. -/
structure TrackFS where
  spotifyJson : Option ℚ
  analysisJson : Option ℚ
  finalJson : Option ℚ
  deriving DecidableEq, Repr

/-- import_music's CLI flags that reach process_track. -/
structure Flags where
  forceMatch : Bool := false
  forceAudio : Bool := false
  forceMerge : Bool := false
  skipMatch : Bool := false
  skipAudio : Bool := false
  skipMerge : Bool := false
  skipLoad : Bool := false
  dryRun : Bool := false
  deriving DecidableEq, Repr

/-- import_music.TrackResult. -/
structure TrackResult where
  matched : Bool := false
  analyzed : Bool := false
  merged : Bool := false
  loaded : Bool := false
  failedStage : Option String := none
  errMsg : Option String := none
  deriving DecidableEq, Repr

/-- One track's initial sidecar state plus the opaque behavior of each stage
runner for it: ok or a raised error message. The merge runner reports
whether it wrote a final sidecar (its module returns exit code 0 also on
skip or hash-mismatch outcomes, writing nothing). writeMtime is the
modification time stamped on anything written this pass. -/
structure TrackWorld where
  fs : TrackFS
  matchRun : Except String Unit
  audioRun : Except String Unit
  mergeRun : Except String Bool
  loadRun : Except String Unit
  writeMtime : ℚ

/-- need_match: `force_match or not file_exists(spotify_json)`. -/
def needMatch (flags : Flags) (fs : TrackFS) : Bool :=
  flags.forceMatch || !fs.spotifyJson.isSome

/-- need_audio: `force_audio or not file_exists(audio_json)`. -/
def needAudio (flags : Flags) (fs : TrackFS) : Bool :=
  flags.forceAudio || !fs.analysisJson.isSome

/-- need_merge: `force_merge or not file_exists(final_json)` — no
modification-time comparison appears here (newer_than is defined in the
source but never called). -/
def needMerge (flags : Flags) (fs : TrackFS) : Bool :=
  flags.forceMerge || !fs.finalJson.isSome

/-- Intermediate state of the per-track pipeline: the result so far, the
sidecar file system, the runners invoked so far, and whether a stage failed
(the early return of each except branch). -/
structure PipeState where
  res : TrackResult
  fs : TrackFS
  ran : List Stage
  stopped : Bool

/-- Stage 1 of process_track (MATCH): skip on flag, skip when the spotify
sidecar exists and match is not forced; under dry-run the runner logs and
returns False; otherwise the runner either succeeds (writing the spotify
sidecar) or raises, failing the track. -/
def matchStage (flags : Flags) (w : TrackWorld) (st : PipeState) : PipeState :=
  if st.stopped then st
  else if flags.skipMatch then st
  else if needMatch flags st.fs then
    let st' := { st with ran := st.ran ++ [Stage.smatch] }
    if flags.dryRun then st'
    else
      match w.matchRun with
      | .ok _ =>
        { st' with
          res := { st'.res with matched := true },
          fs := { st'.fs with spotifyJson := some w.writeMtime } }
      | .error e =>
        { st' with
          res := { st'.res with failedStage := some "MATCH", errMsg := some e },
          stopped := true }
  else st

/-- Stage 2 of process_track (AUDIO analyze), same shape as MATCH. -/
def audioStage (flags : Flags) (w : TrackWorld) (st : PipeState) : PipeState :=
  if st.stopped then st
  else if flags.skipAudio then st
  else if needAudio flags st.fs then
    let st' := { st with ran := st.ran ++ [Stage.saudio] }
    if flags.dryRun then st'
    else
      match w.audioRun with
      | .ok _ =>
        { st' with
          res := { st'.res with analyzed := true },
          fs := { st'.fs with analysisJson := some w.writeMtime } }
      | .error e =>
        { st' with
          res := { st'.res with failedStage := some "AUDIO", errMsg := some e },
          stopped := true }
  else st

/-- Stage 3 of process_track (MERGE): runs when forced or the final sidecar
is absent; on success the merge module may or may not have written a final
sidecar. -/
def mergeStage (flags : Flags) (w : TrackWorld) (st : PipeState) : PipeState :=
  if st.stopped then st
  else if flags.skipMerge then st
  else if needMerge flags st.fs then
    let st' := { st with ran := st.ran ++ [Stage.smerge] }
    if flags.dryRun then st'
    else
      match w.mergeRun with
      | .ok wrote =>
        { st' with
          res := { st'.res with merged := true },
          fs :=
            if wrote then { st'.fs with finalJson := some w.writeMtime }
            else st'.fs }
      | .error e =>
        { st' with
          res := { st'.res with failedStage := some "MERGE", errMsg := some e },
          stopped := true }
  else st

/-- Stage 4 of process_track (LOAD): runs exactly when the final sidecar
exists at this point; its absence is a warning, not a failure. -/
def loadStage (flags : Flags) (w : TrackWorld) (st : PipeState) : PipeState :=
  if st.stopped then st
  else if flags.skipLoad then st
  else if st.fs.finalJson.isSome then
    let st' := { st with ran := st.ran ++ [Stage.sload] }
    if flags.dryRun then st'
    else
      match w.loadRun with
      | .ok _ => { st' with res := { st'.res with loaded := true } }
      | .error e =>
        { st' with
          res := { st'.res with failedStage := some "LOAD", errMsg := some e },
          stopped := true }
  else st

/-- The pipeline state process_track starts from: a fresh TrackResult, the
track's sidecars as found on disk, nothing run, no failure. -/
def initSt (w : TrackWorld) : PipeState :=
  { res := {}, fs := w.fs, ran := [], stopped := false }

/-- import_music.process_track: the four stages in order, each try/except
returning early on a failure. Also yields the final sidecar state and the
list of runners invoked. -/
def process_track (flags : Flags) (w : TrackWorld) : PipeState :=
  loadStage flags w (mergeStage flags w (audioStage flags w
    (matchStage flags w (initSt w))))

/-- The final sidecar's state once the MERGE stage is past, assuming no
earlier stage failed: unchanged unless a non-dry MERGE ran and its runner
reported a write. -/
def finalAfterMerge (flags : Flags) (w : TrackWorld) : Option ℚ :=
  if !flags.skipMerge && needMerge flags w.fs && !flags.dryRun then
    match w.mergeRun with
    | .ok true => some w.writeMtime
    | _ => w.fs.finalJson
  else w.fs.finalJson

/-- Whether stage s's runner raises when process_track reaches it (given no
earlier stage failed): the stage is not skipped by flag, its run condition
holds, dry-run is off (a dry runner returns before calling anything), and
the runner's behavior is an error; the raised message otherwise none. -/
def stageRaises (flags : Flags) (w : TrackWorld) : Stage → Option String
  | .smatch =>
    if !flags.skipMatch && needMatch flags w.fs && !flags.dryRun then
      match w.matchRun with | .error e => some e | .ok _ => none
    else none
  | .saudio =>
    if !flags.skipAudio && needAudio flags w.fs && !flags.dryRun then
      match w.audioRun with | .error e => some e | .ok _ => none
    else none
  | .smerge =>
    if !flags.skipMerge && needMerge flags w.fs && !flags.dryRun then
      match w.mergeRun with | .error e => some e | .ok _ => none
    else none
  | .sload =>
    if !flags.skipLoad && (finalAfterMerge flags w).isSome && !flags.dryRun then
      match w.loadRun with | .error e => some e | .ok _ => none
    else none

/-- A track whose final sidecar (mtime 2) is older than its analysis sidecar
(mtime 5), with every runner well-behaved: the staleness scenario of the
re-merge claim. -/
def staleFinalWorld : TrackWorld :=
  { fs := { spotifyJson := some 1, analysisJson := some 5, finalJson := some 2 },
    matchRun := .ok (), audioRun := .ok (), mergeRun := .ok true,
    loadRun := .ok (), writeMtime := 9 }

/-- A fresh track (no sidecars) whose AUDIO (analyze) runner raises. -/
def audioFailWorld : TrackWorld :=
  { fs := { spotifyJson := none, analysisJson := none, finalJson := none },
    matchRun := .ok (), audioRun := .error "analyzer crashed",
    mergeRun := .ok true, loadRun := .ok (), writeMtime := 9 }

/-- import_music.main's walk: every discovered track goes through
process_track; per-track failures are recorded in the result and the walk
continues. -/
def runPass (flags : Flags) (tracks : List TrackWorld) : List TrackResult :=
  tracks.map (fun w => (process_track flags w).res)

/-- import_music.main: exit 1 when the base path is not a directory, else
process the (possibly max-tracks-capped) track list and return 0. -/
def mainRun (rootIsDir : Bool) (flags : Flags) (maxTracks : Option Nat)
    (tracks : List TrackWorld) : Nat × List TrackResult :=
  if rootIsDir then
    let sel := match maxTracks with | none => tracks | some m => tracks.take m
    (0, runPass flags sel)
  else (1, [])

/-! ## Throttle controller: _throttle_spotify_if_needed -/

/-- MIN_SPOTIFY_INTERVAL = 1.0 second. -/
def MIN_SPOTIFY_INTERVAL : ℚ := 1

/-- One call of _throttle_spotify_if_needed: with `last` the recorded time of
the previous call and `now` the current clock, sleep the remainder of the
minimum interval when needed, then read the clock again and record it.
`eps ≥ 0` is the slack of that second clock read (sleep may oversleep, time
passes between the calls). Returns the newly recorded call time. -/
def throttleStep (last now eps : ℚ) : ℚ :=
  if now - last < MIN_SPOTIFY_INTERVAL then
    now + (MIN_SPOTIFY_INTERVAL - (now - last)) + eps
  else now + eps

/-- The recorded call times over a run: one throttleStep per MATCH call, each
with its arrival clock time and slack, threading the recorded time. -/
def throttleTrace (last0 : ℚ) : List (ℚ × ℚ) → List ℚ
  | [] => []
  | (now, eps) :: rest =>
    let r := throttleStep last0 now eps
    r :: throttleTrace r rest

/-! ## Supporting lemmas -/

theorem jLookup_append (k : String) (l₁ l₂ : List (String × J)) :
    jLookup k (l₁ ++ l₂) =
      match jLookup k l₁ with
      | some v => some v
      | none => jLookup k l₂ := by
  induction l₁ with
  | nil => simp [jLookup]
  | cons kv t ih =>
    obtain ⟨k', v⟩ := kv
    by_cases h : k' = k <;> simp [jLookup, h, ih]

theorem jLookup_none_of_all (k : String) (l : List (String × J))
    (h : ∀ kv ∈ l, kv.1 ≠ k) : jLookup k l = none := by
  induction l with
  | nil => rfl
  | cons kv t ih =>
    simp only [jLookup]
    rw [if_neg (h kv (List.mem_cons_self kv t))]
    exact ih fun kv' hm => h kv' (List.mem_cons_of_mem kv hm)

theorem foldl_append_eq_append_flatten (chunks : List (List α)) (acc : List α) :
    chunks.foldl (· ++ ·) acc = acc ++ chunks.flatten := by
  induction chunks generalizing acc with
  | nil => simp
  | cons c t ih => simp [List.foldl_cons, ih, List.append_assoc]

theorem chunksSucc_flatten (n : Nat) (l : List α) :
    (chunksSucc n l).flatten = l := by
  suffices h : ∀ m (l : List α), l.length ≤ m → (chunksSucc n l).flatten = l from
    h l.length l le_rfl
  intro m
  induction m with
  | zero =>
    intro l hl
    rw [List.eq_nil_of_length_eq_zero (Nat.le_zero.mp hl)]
    simp [chunksSucc]
  | succ m ih =>
    intro l hl
    cases l with
    | nil => simp [chunksSucc]
    | cons a t =>
      rw [chunksSucc]
      simp only [List.flatten_cons]
      rw [ih _ (by simp at hl ⊢; omega)]
      exact List.take_append_drop _ _

theorem absorb_fileChunks (content : List Nat) :
    absorbChunks (fileChunks content) = content := by
  rw [absorbChunks, foldl_append_eq_append_flatten, List.nil_append, fileChunks,
    chunksSucc_flatten]

/-! ## C5: hash determinism -/

/-- C5: the identity hash is a deterministic function of file content only:
the digest absorbs exactly the file's bytes (chunking loses nothing), so
hashing the same bytes twice gives the same hash and two byte-identical
files at different paths hash identically. -/
theorem c5_hash_depends_only_on_content :
    (∀ (digest : List Nat → String) (fs : String → List Nat) (p : String),
      compute_file_hash digest fs p = digest (fs p)) ∧
    (∀ (digest : List Nat → String) (fs : String → List Nat) (p₁ p₂ : String),
      fs p₁ = fs p₂ →
      compute_file_hash digest fs p₁ = compute_file_hash digest fs p₂) := by
  constructor
  · intro digest fs p
    rw [compute_file_hash, absorb_fileChunks]
  · intro digest fs p₁ p₂ h
    rw [compute_file_hash, compute_file_hash, h]

/-- Witness for C5 at a concrete digest, file system and pair of paths. -/
theorem c5_witness :
    compute_file_hash (fun l => toString l.length) (fun _ => [1, 2, 3]) "a"
      = compute_file_hash (fun l => toString l.length) (fun _ => [1, 2, 3]) "b" :=
  c5_hash_depends_only_on_content.2 (fun l => toString l.length)
    (fun _ => [1, 2, 3]) "a" "b" rfl

/-! ## C9: exit code -/

/-- C9: main returns exit code 0 on every completed pass, whatever the
per-track results (tracks and their behaviors are arbitrary), and a
non-zero code exactly when the base path is not a directory. -/
theorem c9_exit_code (rootIsDir : Bool) (flags : Flags) (maxTracks : Option Nat)
    (tracks : List TrackWorld) :
    (mainRun rootIsDir flags maxTracks tracks).1 = if rootIsDir then 0 else 1 := by
  cases rootIsDir <;> simp [mainRun]

/-! ## C8: throttle -/

theorem throttleStep_ge (last now eps : ℚ) (h : 0 ≤ eps) :
    MIN_SPOTIFY_INTERVAL ≤ throttleStep last now eps - last := by
  rw [throttleStep]
  rw [MIN_SPOTIFY_INTERVAL] at *
  split <;> linarith

/-- C8: every recorded Spotify call time is at least MIN_SPOTIFY_INTERVAL
after the previously recorded one (the throttle sleeps out the remainder of
the interval before recording; eps ≥ 0 is each wake-up's slack), so no two
consecutive recorded call times are closer than the minimum interval. -/
theorem c8_throttle_min_interval (last₀ : ℚ) (events : List (ℚ × ℚ))
    (h : ∀ e ∈ events, 0 ≤ e.2) :
    List.Chain' (fun a b => MIN_SPOTIFY_INTERVAL ≤ b - a)
      (last₀ :: throttleTrace last₀ events) := by
  induction events generalizing last₀ with
  | nil => simp [throttleTrace]
  | cons e rest ih =>
    obtain ⟨now, eps⟩ := e
    rw [throttleTrace]
    refine List.chain'_cons.mpr ⟨?_, ?_⟩
    · exact throttleStep_ge last₀ now eps (h (now, eps) (List.mem_cons_self _ _))
    · exact ih (throttleStep last₀ now eps)
        (fun e he => h e (List.mem_cons_of_mem _ he))

/-- Witness for C8: two calls arriving half a second apart are recorded at
least one second apart. -/
theorem c8_witness :
    List.Chain' (fun a b => MIN_SPOTIFY_INTERVAL ≤ b - a)
      ((0 : ℚ) :: throttleTrace 0 [(0, 0), (1/2, 0)]) :=
  c8_throttle_min_interval 0 [(0, 0), (1/2, 0)]
    (by intro e he; simp at he; rcases he with rfl | rfl <;> norm_num)

/-! ## Reconciler lemmas and claims C1, C10, C7 -/

theorem mergeFileInfo_cons (acc : List (String × J)) (kv : String × J)
    (t : List (String × J)) :
    mergeFileInfo acc (kv :: t)
      = mergeFileInfo (if (jLookup kv.1 acc).isSome then acc else acc ++ [kv]) t :=
  rfl

theorem jLookup_mergeFileInfo_isSome (aud : List (String × J)) :
    ∀ (acc : List (String × J)) (k : String), (jLookup k acc).isSome →
      jLookup k (mergeFileInfo acc aud) = jLookup k acc := by
  induction aud with
  | nil => intro acc k _; rfl
  | cons kv t ih =>
    intro acc k h
    rw [mergeFileInfo_cons]
    by_cases hc : (jLookup kv.1 acc).isSome
    · rw [if_pos hc]
      exact ih acc k h
    · rw [if_neg hc]
      obtain ⟨v, hv⟩ := Option.isSome_iff_exists.mp h
      have h2 : jLookup k (acc ++ [kv]) = jLookup k acc := by
        rw [jLookup_append, hv]
      rw [ih (acc ++ [kv]) k (by rw [h2]; exact h), h2]

theorem jLookup_mergeFileInfo_none (aud : List (String × J)) :
    ∀ (acc : List (String × J)) (k : String), jLookup k acc = none →
      jLookup k (mergeFileInfo acc aud) = jLookup k aud := by
  induction aud with
  | nil =>
    intro acc k h
    rw [show mergeFileInfo acc [] = acc from rfl, h]
    rfl
  | cons kv t ih =>
    obtain ⟨k₁, v₁⟩ := kv
    intro acc k h
    rw [mergeFileInfo_cons]
    by_cases hk : k₁ = k
    · subst hk
      have hc : ¬((jLookup k₁ acc).isSome = true) := by simp [h]
      rw [if_neg hc]
      have hlook : jLookup k₁ (acc ++ [(k₁, v₁)]) = some v₁ := by
        rw [jLookup_append, h]
        simp [jLookup]
      rw [jLookup_mergeFileInfo_isSome t _ _ (by rw [hlook]; rfl), hlook]
      simp [jLookup]
    · have step :
          jLookup k (if (jLookup k₁ acc).isSome then acc else acc ++ [(k₁, v₁)])
            = none := by
        split
        · exact h
        · rw [jLookup_append, h]
          simp [jLookup, hk]
      rw [ih _ _ step]
      simp [jLookup, hk]

/-- C10: the hash-mismatch refusal needs both documents to carry a hash: when
at least one of the two stage documents has no string at file.hash_sha256,
a non-skipped, non-dry merge builds and writes the final document; and
conversely a hash_mismatch outcome can only arise from two carried hashes
that differ. -/
theorem c10_missing_hash_no_refusal :
    (∀ (inp : MergeInput) (now aj sj : String) (spot aud : List (String × J)),
      inp.audioJson = some (some (.jobj aud)) →
      inp.spotifyJson = some (some (.jobj spot)) →
      (inp.finalBefore.isSome && !inp.force) = false →
      inp.dryRun = false →
      (safe_get_file_hash (.jobj spot) = none ∨ safe_get_file_hash (.jobj aud) = none) →
      merge_process_track inp now aj sj
        = (.merged, some (build_final_json spot aud now aj sj))) ∧
    (∀ (inp : MergeInput) (now aj sj : String),
      (merge_process_track inp now aj sj).1 = .hashMismatch →
      ∃ spot aud h₁ h₂,
        inp.spotifyJson = some (some (.jobj spot)) ∧
        inp.audioJson = some (some (.jobj aud)) ∧
        safe_get_file_hash (.jobj spot) = some h₁ ∧
        safe_get_file_hash (.jobj aud) = some h₂ ∧ h₁ ≠ h₂) := by
  constructor
  · intro inp now aj sj spot aud haud hspot hskip hdry hmiss
    rw [merge_process_track, hskip, haud, hspot]
    have hguard :
        hashMismatchGuard (safe_get_file_hash (.jobj spot))
          (safe_get_file_hash (.jobj aud)) = false := by
      rcases hmiss with hm | hm <;> simp [hashMismatchGuard, hm, optStrTruthy]
    simp [safe_get_dict, hguard, hdry]
  · intro inp now aj sj h
    rw [merge_process_track] at h
    by_cases hskip : (inp.finalBefore.isSome && !inp.force) = true
    · rw [if_pos hskip] at h
      exact absurd h (by simp)
    · rw [if_neg hskip] at h
      cases haud : inp.audioJson with
      | none => rw [haud] at h; exact absurd h (by simp)
      | some audRaw =>
      rw [haud] at h
      dsimp only at h
      cases hspot : inp.spotifyJson with
      | none => rw [hspot] at h; exact absurd h (by simp)
      | some spotRaw =>
      rw [hspot] at h
      dsimp only at h
      cases hsd : safe_get_dict spotRaw with
      | none => rw [hsd] at h; exact absurd h (by simp)
      | some spot =>
      rw [hsd] at h
      cases had : safe_get_dict audRaw with
      | none => rw [had] at h; exact absurd h (by simp)
      | some aud =>
      rw [had] at h
      dsimp only at h
      obtain ⟨spotRaw', hsr⟩ : spotRaw = some (.jobj spot) ∧ True := by
        cases spotRaw with
        | none => exact absurd hsd (by simp [safe_get_dict])
        | some v =>
          cases v <;> simp [safe_get_dict] at hsd
          exact ⟨by rw [hsd], trivial⟩
      obtain ⟨audRaw', har⟩ : audRaw = some (.jobj aud) ∧ True := by
        cases audRaw with
        | none => exact absurd had (by simp [safe_get_dict])
        | some v =>
          cases v <;> simp [safe_get_dict] at had
          exact ⟨by rw [had], trivial⟩
      by_cases hguard :
          hashMismatchGuard (safe_get_file_hash (.jobj spot))
            (safe_get_file_hash (.jobj aud)) = true
      · obtain ⟨⟨ht₁, ht₂⟩, hne⟩ :
            (optStrTruthy (safe_get_file_hash (.jobj spot)) = true ∧
              optStrTruthy (safe_get_file_hash (.jobj aud)) = true) ∧
            (safe_get_file_hash (.jobj spot) != safe_get_file_hash (.jobj aud))
              = true := by
          simpa [hashMismatchGuard, Bool.and_eq_true, and_assoc] using hguard
        obtain ⟨h₁, hv₁⟩ : ∃ x, safe_get_file_hash (.jobj spot) = some x := by
          cases hx : safe_get_file_hash (.jobj spot) with
          | none => rw [hx] at ht₁; exact absurd ht₁ (by simp [optStrTruthy])
          | some x => exact ⟨x, rfl⟩
        obtain ⟨h₂, hv₂⟩ : ∃ x, safe_get_file_hash (.jobj aud) = some x := by
          cases hx : safe_get_file_hash (.jobj aud) with
          | none => rw [hx] at ht₂; exact absurd ht₂ (by simp [optStrTruthy])
          | some x => exact ⟨x, rfl⟩
        refine ⟨spot, aud, h₁, h₂, by rw [spotRaw'], by rw [audRaw'],
          hv₁, hv₂, ?_⟩
        intro hEq
        rw [hv₁, hv₂, hEq] at hne
        simp at hne
      · rw [if_neg hguard] at h
        split at h <;> exact absurd h (by simp)

/-- Witness for C10: a MATCH document with no file section at all still
merges against an ANALYZE document, producing a final document. -/
theorem c10_witness :
    merge_process_track
      { audioJson := some (some (.jobj [("x", .jnum 1)])),
        spotifyJson := some (some (.jobj [])),
        finalBefore := none, force := false, dryRun := false } "T" "a.json" "s.json"
      = (.merged, some (build_final_json [] [("x", .jnum 1)] "T" "a.json" "s.json")) :=
  c10_missing_hash_no_refusal.1 _ "T" "a.json" "s.json" [] [("x", .jnum 1)]
    rfl rfl rfl rfl (Or.inl rfl)

/-- C1 counterexample: the claim quantifies over documents carrying hashes
H1 and H2 with H1 different from H2, but for H1 the empty string (which is
a string carried at file.hash_sha256) the guard
`if hash_spot and hash_audio and ...` is falsy, so the merge is NOT refused:
it returns merged and writes a final document. -/
theorem c1_empty_hash_merges_despite_mismatch :
    safe_get_file_hash (.jobj [("file", .jobj [("hash_sha256", .jstr "")])])
      = some "" ∧
    safe_get_file_hash (.jobj [("file", .jobj [("hash_sha256", .jstr "abc")])])
      = some "abc" ∧
    ("" : String) ≠ "abc" ∧
    (merge_process_track
      { audioJson :=
          some (some (.jobj [("file", .jobj [("hash_sha256", .jstr "abc")])])),
        spotifyJson :=
          some (some (.jobj [("file", .jobj [("hash_sha256", .jstr "")])])),
        finalBefore := none, force := false, dryRun := false }
      "T" "a.json" "s.json").1 = .merged ∧
    (merge_process_track
      { audioJson :=
          some (some (.jobj [("file", .jobj [("hash_sha256", .jstr "abc")])])),
        spotifyJson :=
          some (some (.jobj [("file", .jobj [("hash_sha256", .jstr "")])])),
        finalBefore := none, force := false, dryRun := false }
      "T" "a.json" "s.json").2.isSome = true :=
  ⟨rfl, rfl, by decide, rfl, rfl⟩

/-- C1 (amended): when the MATCH and ANALYZE documents carry NON-EMPTY string
hashes that differ, the merge never touches the final sidecar, and whenever
it is not skipped outright (final present without force) it reports the
hash-mismatch outcome. -/
theorem c1_nonempty_hash_mismatch_refused
    (inp : MergeInput) (now aj sj : String) (spot aud : List (String × J))
    (h₁ h₂ : String)
    (haud : inp.audioJson = some (some (.jobj aud)))
    (hspot : inp.spotifyJson = some (some (.jobj spot)))
    (hv₁ : safe_get_file_hash (.jobj spot) = some h₁)
    (hv₂ : safe_get_file_hash (.jobj aud) = some h₂)
    (hne₁ : h₁ ≠ "") (hne₂ : h₂ ≠ "") (hne : h₁ ≠ h₂) :
    (merge_process_track inp now aj sj).2 = inp.finalBefore ∧
    ((inp.finalBefore.isSome && !inp.force) = false →
      (merge_process_track inp now aj sj).1 = .hashMismatch) := by
  have hguard : hashMismatchGuard (safe_get_file_hash (.jobj spot))
      (safe_get_file_hash (.jobj aud)) = true := by
    simp [hashMismatchGuard, hv₁, hv₂, optStrTruthy, hne₁, hne₂, hne]
  constructor
  · rw [merge_process_track]
    by_cases hskip : (inp.finalBefore.isSome && !inp.force) = true
    · rw [if_pos hskip]
    · rw [if_neg hskip, haud, hspot]
      simp [safe_get_dict, hguard]
  · intro hskip
    rw [merge_process_track, hskip, haud, hspot]
    simp [safe_get_dict, hguard]

/-- Witness for C1 (amended) at two concrete documents with non-empty
differing hashes and no pre-existing final sidecar. -/
theorem c1_witness :
    (merge_process_track
      { audioJson :=
          some (some (.jobj [("file", .jobj [("hash_sha256", .jstr "bbb")])])),
        spotifyJson :=
          some (some (.jobj [("file", .jobj [("hash_sha256", .jstr "aaa")])])),
        finalBefore := none, force := false, dryRun := false }
      "T" "a.json" "s.json").1 = .hashMismatch ∧
    (merge_process_track
      { audioJson :=
          some (some (.jobj [("file", .jobj [("hash_sha256", .jstr "bbb")])])),
        spotifyJson :=
          some (some (.jobj [("file", .jobj [("hash_sha256", .jstr "aaa")])])),
        finalBefore := none, force := false, dryRun := false }
      "T" "a.json" "s.json").2 = none := by
  have h := c1_nonempty_hash_mismatch_refused
    { audioJson :=
        some (some (.jobj [("file", .jobj [("hash_sha256", .jstr "bbb")])])),
      spotifyJson :=
        some (some (.jobj [("file", .jobj [("hash_sha256", .jstr "aaa")])])),
      finalBefore := none, force := false, dryRun := false }
    "T" "a.json" "s.json" _ _ "aaa" "bbb" rfl rfl rfl rfl
    (by decide) (by decide) (by decide)
  exact ⟨h.2 rfl, h.1⟩

theorem pyOr_pos {a : J} (b : J) (h : truthy a = true) : pyOr a b = a := by
  rw [pyOr, if_pos h]

theorem pyOr_neg {a : J} (b : J) (h : truthy a = false) : pyOr a b = b := by
  rw [pyOr]
  simp [h]

/-- C7 counterexample: an ANALYZE document whose features section is present
but falsy (an empty list) is not copied verbatim: the final document holds
an empty object instead. -/
theorem c7_falsy_section_not_copied_verbatim :
    objGet (build_final_json [] [("features", .jarr [])] "T" "a.json" "s.json")
      "features" = some (.jobj []) ∧
    jLookup "features" [("features", J.jarr [])] = some (.jarr []) ∧
    J.jobj [] ≠ J.jarr [] :=
  ⟨rfl, rfl, fun h => J.noConfusion h⟩

/-- C7 (amended): the final document's file section keeps every MATCH file
field with its MATCH value and adds the ANALYZE-only file fields with their
ANALYZE values; each ANALYZE-only section (features, genre, mood,
instruments) is copied verbatim when its value is truthy and replaced by an
empty object otherwise; and the merge provenance holds the timestamp and
the two source sidecar paths. -/
theorem c7_final_document_shape (spot aud : List (String × J)) (now aj sj : String) :
    objGet (build_final_json spot aud now aj sj) "file"
      = some (.jobj (mergeFileInfo (fileSectionOf spot) (fileSectionOf aud))) ∧
    (∀ k v, jLookup k (fileSectionOf spot) = some v →
      jLookup k (mergeFileInfo (fileSectionOf spot) (fileSectionOf aud)) = some v) ∧
    (∀ k, jLookup k (fileSectionOf spot) = none →
      jLookup k (mergeFileInfo (fileSectionOf spot) (fileSectionOf aud))
        = jLookup k (fileSectionOf aud)) ∧
    (∀ sec, sec = "features" ∨ sec = "genre" ∨ sec = "mood" ∨ sec = "instruments" →
      (truthy (jGetD aud sec) = true →
        objGet (build_final_json spot aud now aj sj) sec = some (jGetD aud sec)) ∧
      (truthy (jGetD aud sec) = false →
        objGet (build_final_json spot aud now aj sj) sec = some (.jobj []))) ∧
    objGet (build_final_json spot aud now aj sj) "merge"
      = some (.jobj [("created_at", .jstr now), ("audio_json", .jstr aj),
          ("spotify_json", .jstr sj)]) := by
  have hsec : ∀ sec, sec = "features" ∨ sec = "genre" ∨ sec = "mood" ∨
      sec = "instruments" →
      objGet (build_final_json spot aud now aj sj) sec
        = some (pyOr (jGetD aud sec) (.jobj [])) := by
    rintro sec (rfl | rfl | rfl | rfl) <;> rfl
  refine ⟨rfl, ?_, ?_, ?_, rfl⟩
  · intro k v h
    rw [jLookup_mergeFileInfo_isSome _ _ _ (by rw [h]; rfl), h]
  · intro k h
    exact jLookup_mergeFileInfo_none _ _ _ h
  · intro sec hs
    rw [hsec sec hs]
    exact ⟨fun ht => by rw [pyOr_pos _ ht], fun hf => by rw [pyOr_neg _ hf]⟩

/-- Witness for C7 (amended) at concrete documents: a MATCH-only file field
keeps its MATCH value, an ANALYZE-only file field is added, and a truthy
features section is copied verbatim. -/
theorem c7_witness :
    jLookup "path"
      (mergeFileInfo
        (fileSectionOf [("file", .jobj [("path", .jstr "/p")])])
        (fileSectionOf [("file", .jobj [("size", .jnum 2)]),
          ("features", .jobj [("tempo", .jnum 120)])]))
      = some (.jstr "/p") ∧
    jLookup "size"
      (mergeFileInfo
        (fileSectionOf [("file", .jobj [("path", .jstr "/p")])])
        (fileSectionOf [("file", .jobj [("size", .jnum 2)]),
          ("features", .jobj [("tempo", .jnum 120)])]))
      = some (.jnum 2) ∧
    objGet
      (build_final_json [("file", .jobj [("path", .jstr "/p")])]
        [("file", .jobj [("size", .jnum 2)]),
          ("features", .jobj [("tempo", .jnum 120)])] "T" "a.json" "s.json")
      "features" = some (.jobj [("tempo", .jnum 120)]) := by
  obtain ⟨h₁, h₂, h₃, h₄, h₅⟩ := c7_final_document_shape
    [("file", .jobj [("path", .jstr "/p")])]
    [("file", .jobj [("size", .jnum 2)]), ("features", .jobj [("tempo", .jnum 120)])]
    "T" "a.json" "s.json"
  refine ⟨h₂ "path" (.jstr "/p") rfl, ?_, ?_⟩
  · rw [h₃ "size" rfl]
    rfl
  · rw [(h₄ "features" (Or.inl rfl)).1 rfl]
    rfl

/-! ## Loader lemmas and claims C3, C4 -/

theorem rowGet_append {V : Type} (r₁ r₂ : DbRow V) (k : String) :
    rowGet (r₁ ++ r₂) k =
      match rowGet r₁ k with
      | some v => some v
      | none => rowGet r₂ k := by
  induction r₁ with
  | nil => simp [rowGet]
  | cons kv t ih =>
    obtain ⟨k', v⟩ := kv
    by_cases h : k' = k <;> simp [rowGet, h, ih]

theorem rowGet_none_of_all {V : Type} (r : DbRow V) (k : String)
    (h : ∀ kv ∈ r, kv.1 ≠ k) : rowGet r k = none := by
  induction r with
  | nil => rfl
  | cons kv t ih =>
    simp only [rowGet]
    rw [if_neg (h kv (List.mem_cons_self kv t))]
    exact ih fun kv' hm => h kv' (List.mem_cons_of_mem kv hm)

theorem rowGet_reverse_of_nodup {V : Type} (r : DbRow V) (k : String)
    (h : (r.map Prod.fst).Nodup) : rowGet r.reverse k = rowGet r k := by
  induction r with
  | nil => rfl
  | cons kv t ih =>
    obtain ⟨k', v⟩ := kv
    rw [List.reverse_cons, rowGet_append]
    simp only [List.map_cons, List.nodup_cons] at h
    by_cases hk : k' = k
    · subst hk
      have hnone : rowGet t.reverse k' = none := by
        refine rowGet_none_of_all _ _ fun kv hm hkv => h.1 ?_
        rw [← hkv]
        exact List.mem_map_of_mem Prod.fst (List.mem_reverse.mp hm)
      rw [hnone]
      simp [rowGet]
    · rw [ih h.2]
      cases hget : rowGet t k <;> simp [rowGet, hk, hget]

theorem rowGet_rowDrop_other {V : Type} (r : DbRow V) (k k' : String)
    (h : k' ≠ k) : rowGet (rowDrop r k) k' = rowGet r k' := by
  induction r with
  | nil => rfl
  | cons kv t ih =>
    obtain ⟨k₁, v₁⟩ := kv
    by_cases hk : k₁ = k
    · subst hk
      have e : rowDrop ((k₁, v₁) :: t) k₁ = rowDrop t k₁ := by
        simp [rowDrop, List.filter_cons]
      have hne : ¬ k₁ = k' := fun hh => h hh.symm
      rw [e, ih]
      simp [rowGet, hne]
    · have e : rowDrop ((k₁, v₁) :: t) k = (k₁, v₁) :: rowDrop t k := by
        simp [rowDrop, List.filter_cons, hk]
      rw [e]
      by_cases hk' : k₁ = k'
      · simp [rowGet, hk']
      · simp only [rowGet, if_neg hk']
        exact ih

theorem rowGet_rowDrop_self {V : Type} (r : DbRow V) (k : String) :
    rowGet (rowDrop r k) k = none := by
  refine rowGet_none_of_all _ _ fun kv hm => ?_
  have := List.of_mem_filter hm
  simpa using this

theorem rowGet_map_set {V : Type} [DecidableEq V] (t : DbRow V)
    (k : String) (v : V) :
    rowGet (t.map (fun kv => if kv.1 = k then (k, v) else kv)) k
      = (rowGet t k).map (fun _ => v) := by
  induction t with
  | nil => rfl
  | cons kv t ih =>
    obtain ⟨k₁, v₁⟩ := kv
    simp only [List.map_cons]
    by_cases hk : k₁ = k
    · rw [if_pos hk]
      simp [rowGet, hk]
    · rw [if_neg hk]
      simp only [rowGet, if_neg hk]
      exact ih

theorem rowGet_map_set_other {V : Type} [DecidableEq V] (t : DbRow V)
    (k k' : String) (v : V) (h : k' ≠ k) :
    rowGet (t.map (fun kv => if kv.1 = k then (k, v) else kv)) k'
      = rowGet t k' := by
  have hne : ¬ k = k' := fun hh => h hh.symm
  induction t with
  | nil => rfl
  | cons kv t ih =>
    obtain ⟨k₁, v₁⟩ := kv
    simp only [List.map_cons]
    by_cases hk : k₁ = k
    · rw [if_pos hk]
      have hne₁ : ¬ k₁ = k' := by rw [hk]; exact hne
      simp only [rowGet, if_neg hne, if_neg hne₁]
      exact ih
    · rw [if_neg hk]
      by_cases hk' : k₁ = k'
      · simp [rowGet, hk']
      · simp only [rowGet, if_neg hk']
        exact ih

theorem rowGet_rowSet_self {V : Type} [DecidableEq V] (r : DbRow V)
    (k : String) (v : V) : rowGet (rowSet r k v) k = some v := by
  rw [rowSet]
  by_cases h : (rowGet r k).isSome
  · rw [if_pos h, rowGet_map_set]
    obtain ⟨w, hw⟩ := Option.isSome_iff_exists.mp h
    rw [hw]
    rfl
  · rw [if_neg h, rowGet_append, Option.not_isSome_iff_eq_none.mp h]
    simp [rowGet]

theorem rowGet_rowSet_other {V : Type} [DecidableEq V] (r : DbRow V)
    (k k' : String) (v : V) (h : k' ≠ k) :
    rowGet (rowSet r k v) k' = rowGet r k' := by
  rw [rowSet]
  by_cases hs : (rowGet r k).isSome
  · rw [if_pos hs, rowGet_map_set_other _ _ _ _ h]
  · rw [if_neg hs, rowGet_append]
    cases hget : rowGet r k' with
    | some w => rfl
    | none =>
      have hne : ¬ k = k' := fun hh => h hh.symm
      simp [rowGet, hne]

theorem updateRow_cons {V : Type} [DecidableEq V] (r : DbRow V)
    (kv : String × V) (t : DbRow V) :
    updateRow r (kv :: t) = updateRow (rowSet r kv.1 kv.2) t := rfl

theorem rowGet_updateRow {V : Type} [DecidableEq V] (d : DbRow V) :
    ∀ (r : DbRow V) (k : String),
      rowGet (updateRow r d) k =
        match rowGet d.reverse k with
        | some v => some v
        | none => rowGet r k := by
  induction d with
  | nil => intro r k; rfl
  | cons kv t ih =>
    intro r k
    obtain ⟨k₁, v₁⟩ := kv
    rw [updateRow_cons, ih, List.reverse_cons, rowGet_append]
    cases hlast : rowGet t.reverse k with
    | some v => rfl
    | none =>
      by_cases hk : k₁ = k
      · subst hk
        simp [rowGet, rowGet_rowSet_self]
      · have hne : k ≠ k₁ := fun hh => hk hh.symm
        simp [rowGet, hk, rowGet_rowSet_other r k₁ k v₁ hne]

theorem rowDrop_append_keep {V : Type} (r : DbRow V) (kv : String × V)
    (k : String) (h : kv.1 ≠ k) :
    rowDrop (r ++ [kv]) k = rowDrop r k ++ [kv] := by
  rw [rowDrop, List.filter_append, rowDrop]
  congr 1
  rw [List.filter_cons]
  simp [h]

theorem map_update_of_no_match {V : Type} [DecidableEq V] (key : String) (val : V)
    (f : DbRow V → DbRow V) (t : DbTable V)
    (h : ∀ r ∈ t, rowMatchesKey key val r = false) :
    t.map (fun r => if rowMatchesKey key val r then f r else r) = t := by
  induction t with
  | nil => rfl
  | cons r t ih =>
    rw [List.map_cons, if_neg (by rw [h r (List.mem_cons_self r t)]; simp),
      ih fun r' hm => h r' (List.mem_cons_of_mem r hm)]

/-- C3: loading the same canonical record twice leaves exactly one row for
the track: the first load inserts a row stamping added_at and updated_at
with the first timestamp; the second load updates that row in place,
refreshing only updated_at (every other column, added_at and the key column
included, keeps its value). -/
theorem c3_upsert_idempotent {V : Type} [DecidableEq V]
    (t : DbTable V) (data : DbRow V) (key : String) (val : V) (n₁ n₂ : V)
    (h₀ : countMatching t key val = 0)
    (hk : rowGet data key = some val)
    (ha : rowGet data "added_at" = none)
    (hu : rowGet data "updated_at" = none)
    (hku : key ≠ "updated_at")
    (hnd : (data.map Prod.fst).Nodup) :
    ∃ d₁ r₂ : DbRow V,
      upsert_track t data key val n₁ false = (t ++ [d₁], "inserted") ∧
      upsert_track (t ++ [d₁]) data key val n₂ false = (t ++ [r₂], "updated") ∧
      countMatching (t ++ [d₁]) key val = 1 ∧
      countMatching (t ++ [r₂]) key val = 1 ∧
      findRow (t ++ [d₁]) key val = some d₁ ∧
      findRow (t ++ [r₂]) key val = some r₂ ∧
      rowGet d₁ "added_at" = some n₁ ∧ rowGet d₁ "updated_at" = some n₁ ∧
      rowGet r₂ "added_at" = some n₁ ∧ rowGet r₂ "updated_at" = some n₂ ∧
      rowGet r₂ key = some val ∧
      (∀ k', k' ≠ "updated_at" → rowGet r₂ k' = rowGet d₁ k') := by
  classical
  -- no row matches the key in the initial table
  have hfil : t.filter (rowMatchesKey key val) = [] :=
    List.length_eq_zero.mp h₀
  have hnomatch : ∀ r ∈ t, rowMatchesKey key val r = false := by
    intro r hm
    by_contra hcon
    have : r ∈ t.filter (rowMatchesKey key val) :=
      List.mem_filter.mpr ⟨hm, by simpa using hcon⟩
    rw [hfil] at this
    exact absurd this (List.not_mem_nil r)
  have hfind : findRow t key val = none :=
    List.find?_eq_none.mpr fun r hm => by rw [hnomatch r hm]; simp
  -- the inserted row
  set d₁ : DbRow V := rowSet (rowSetDefault data "added_at" n₁) "updated_at" n₁
    with hd₁def
  have hsetdef : rowSetDefault data "added_at" n₁ = data ++ [("added_at", n₁)] := by
    rw [rowSetDefault, ha]
    rfl
  have hu' : rowGet (data ++ [("added_at", n₁)]) "updated_at" = none := by
    rw [rowGet_append, hu]
    rfl
  have hd₁ : d₁ = data ++ [("added_at", n₁)] ++ [("updated_at", n₁)] := by
    rw [hd₁def, hsetdef, rowSet, hu']
    rfl
  have hd₁a : rowGet d₁ "added_at" = some n₁ := by
    rw [hd₁, rowGet_append, rowGet_append, ha]
    rfl
  have hd₁u : rowGet d₁ "updated_at" = some n₁ := by
    rw [hd₁, rowGet_append, hu']
    rfl
  have hd₁key : rowGet d₁ key = some val := by
    rw [hd₁, rowGet_append, rowGet_append, hk]
  have hmatch₁ : rowMatchesKey key val d₁ = true := by
    rw [rowMatchesKey, hd₁key]
    simp
  have e₁ : upsert_track t data key val n₁ false = (t ++ [d₁], "inserted") := by
    rw [upsert_track, hfind]
    rfl
  -- the updated row
  have hrowset₂ : rowSet data "updated_at" n₂ = data ++ [("updated_at", n₂)] := by
    rw [rowSet, hu]
    rfl
  set Y : DbRow V := rowDrop (rowDrop data "added_at") key with hYdef
  set d₂ : DbRow V :=
    rowDrop (rowDrop (rowSet data "updated_at" n₂) "added_at") key with hd₂def
  have hd₂ : d₂ = Y ++ [("updated_at", n₂)] := by
    rw [hd₂def, hrowset₂, hYdef,
      rowDrop_append_keep data ("updated_at", n₂) "added_at"
        (fun hh => absurd (show ("updated_at" : String) = "added_at" from hh)
          (by decide)),
      rowDrop_append_keep (rowDrop data "added_at") ("updated_at", n₂) key
        (fun hh => hku hh.symm)]
  have hYmem : ∀ kv ∈ Y, kv.1 ≠ "added_at" ∧ kv.1 ≠ key := by
    intro kv hm
    rw [hYdef] at hm
    have hm₂ := List.mem_of_mem_filter hm
    constructor
    · have := List.of_mem_filter hm₂
      simpa using this
    · have := List.of_mem_filter hm
      simpa using this
  have hd₂empty : d₂.isEmpty = false := by
    rw [hd₂]
    cases Y <;> rfl
  have hrevu : rowGet d₂.reverse "updated_at" = some n₂ := by
    rw [hd₂, List.reverse_append]
    simp [rowGet]
  have hreva : rowGet d₂.reverse "added_at" = none := by
    refine rowGet_none_of_all _ _ fun kv hm => ?_
    rw [List.mem_reverse, hd₂, List.mem_append] at hm
    rcases hm with hm | hm
    · exact (hYmem kv hm).1
    · simp at hm
      subst hm
      exact fun hh => absurd (show ("updated_at" : String) = "added_at" from hh)
        (by decide)
  have hrevkey : rowGet d₂.reverse key = none := by
    refine rowGet_none_of_all _ _ fun kv hm => ?_
    rw [List.mem_reverse, hd₂, List.mem_append] at hm
    rcases hm with hm | hm
    · exact (hYmem kv hm).2
    · simp at hm
      subst hm
      exact fun h => hku h.symm
  -- the Y block keeps Nodup keys, so last lookup = first lookup there
  have hYsub : List.Sublist Y data := by
    rw [hYdef]
    exact (List.filter_sublist _).trans (List.filter_sublist _)
  have hYnodup : (Y.map Prod.fst).Nodup :=
    (hYsub.map Prod.fst).nodup hnd
  set r₂ : DbRow V := updateRow d₁ d₂ with hr₂def
  have hr₂u : rowGet r₂ "updated_at" = some n₂ := by
    rw [hr₂def, rowGet_updateRow, hrevu]
  have hr₂other : ∀ k', k' ≠ "updated_at" → rowGet r₂ k' = rowGet d₁ k' := by
    intro k' hk'
    rw [hr₂def, rowGet_updateRow]
    cases hcl : rowGet d₂.reverse k' with
    | none => rfl
    | some w =>
      by_cases hka' : k' = "added_at"
      · rw [hka', hreva] at hcl
        exact absurd hcl (by simp)
      · by_cases hkk : k' = key
        · rw [hkk, hrevkey] at hcl
          exact absurd hcl (by simp)
        · -- k' is an ordinary data column: its last binding in d₂ is its
          -- unique binding in data
          have hchain : rowGet d₂.reverse k' = rowGet data k' := by
            rw [hd₂, List.reverse_append]
            rw [show (List.reverse [("updated_at", n₂)] : DbRow V)
                = [("updated_at", n₂)] from rfl]
            rw [show ([("updated_at", n₂)] ++ Y.reverse : DbRow V)
                = ("updated_at", n₂) :: Y.reverse from rfl]
            rw [show rowGet (("updated_at", n₂) :: Y.reverse) k'
                = rowGet Y.reverse k' from by
              have hne : ¬ ("updated_at" : String) = k' := fun h => hk' h.symm
              simp [rowGet, hne]]
            rw [rowGet_reverse_of_nodup Y k' hYnodup, hYdef,
              rowGet_rowDrop_other _ _ _ hkk, rowGet_rowDrop_other _ _ _ hka']
          rw [hchain] at hcl
          rw [hd₁, rowGet_append, rowGet_append, hcl]
  have hr₂a : rowGet r₂ "added_at" = some n₁ := by
    rw [hr₂other "added_at" (by decide), hd₁a]
  have hr₂key : rowGet r₂ key = some val := by
    rw [hr₂other key hku, hd₁key]
  have hmatch₂ : rowMatchesKey key val r₂ = true := by
    rw [rowMatchesKey, hr₂key]
    simp
  -- the second pass finds the inserted row
  have hfind₂ : findRow (t ++ [d₁]) key val = some d₁ := by
    rw [findRow, List.find?_append]
    rw [show List.find? (rowMatchesKey key val) t = none from
      List.find?_eq_none.mpr fun r hm => by rw [hnomatch r hm]; simp]
    simp [List.find?, hmatch₁]
  have e₂ : upsert_track (t ++ [d₁]) data key val n₂ false
      = (t ++ [r₂], "updated") := by
    rw [upsert_track, hfind₂]
    simp only [← hd₂def, Bool.or_false, hd₂empty, if_false, Bool.false_eq_true]
    rw [List.map_append,
      map_update_of_no_match key val (fun r => updateRow r d₂) t hnomatch]
    rw [show (([d₁] : DbTable V).map
        (fun r => if rowMatchesKey key val r then updateRow r d₂ else r))
        = [updateRow d₁ d₂] from by rw [List.map_cons, if_pos hmatch₁, List.map_nil]]
  have hcount₁ : countMatching (t ++ [d₁]) key val = 1 := by
    rw [countMatching, List.filter_append, hfil]
    simp [List.filter_cons, hmatch₁]
  have hcount₂ : countMatching (t ++ [r₂]) key val = 1 := by
    rw [countMatching, List.filter_append, hfil]
    simp [List.filter_cons, hmatch₂]
  have hfind₂' : findRow (t ++ [r₂]) key val = some r₂ := by
    rw [findRow, List.find?_append]
    rw [show List.find? (rowMatchesKey key val) t = none from
      List.find?_eq_none.mpr fun r hm => by rw [hnomatch r hm]; simp]
    simp [List.find?, hmatch₂]
  exact ⟨d₁, r₂, e₁, e₂, hcount₁, hcount₂, hfind₂, hfind₂', hd₁a, hd₁u,
    hr₂a, hr₂u, hr₂key, hr₂other⟩

/-- Witness for C3 at a concrete record over string values: inserting then
re-loading the same record keeps one matching row, the creation stamp and
the key, and refreshes only the update stamp. -/
theorem c3_witness :
    ∃ d₁ r₂ : DbRow String,
      upsert_track ([] : DbTable String)
        [("file_hash", "abc"), ("title", "x")] "file_hash" "abc" "t1" false
        = ([] ++ [d₁], "inserted") ∧
      upsert_track ([] ++ [d₁])
        [("file_hash", "abc"), ("title", "x")] "file_hash" "abc" "t2" false
        = ([] ++ [r₂], "updated") ∧
      countMatching ([] ++ [d₁]) "file_hash" "abc" = 1 ∧
      countMatching ([] ++ [r₂]) "file_hash" "abc" = 1 ∧
      findRow ([] ++ [d₁]) "file_hash" "abc" = some d₁ ∧
      findRow ([] ++ [r₂]) "file_hash" "abc" = some r₂ ∧
      rowGet d₁ "added_at" = some "t1" ∧ rowGet d₁ "updated_at" = some "t1" ∧
      rowGet r₂ "added_at" = some "t1" ∧ rowGet r₂ "updated_at" = some "t2" ∧
      rowGet r₂ "file_hash" = some "abc" ∧
      (∀ k', k' ≠ "updated_at" → rowGet r₂ k' = rowGet d₁ k') :=
  c3_upsert_idempotent [] [("file_hash", "abc"), ("title", "x")]
    "file_hash" "abc" "t1" "t2" rfl rfl rfl rfl (by decide) (by decide)

/-- C4 counterexample: with a table having both key columns and a record that
has no hash but a determinable path, the loader does not fall through to the
file-path key: it fails with the missing-hash error. -/
theorem c4_missing_hash_with_hash_column_errors :
    build_record_key ["file_hash", "file_path"] [] false "/x.mp3"
      = .error "final JSON has no hash_sha256/file_hash usable for file_hash" ∧
    infer_file_path [] false "/x.mp3" = some "/x.mp3" ∧
    infer_file_hash [] = none :=
  ⟨rfl, rfl, rfl⟩

/-- C4 (amended): the upsert key is the content hash when the table has that
column and the record carries one; the file path when the table lacks the
hash column, has the path column and a path is determinable; a present hash
or path column whose value cannot be resolved makes the load fail before
any write; and with neither column the load fails with the no-upsert-key
error. Every key-determination failure leaves the table untouched. -/
theorem c4_upsert_key_priority (cols : List String) (obj : List (String × J))
    (cliIsJson : Bool) (cliPath : String) :
    (cols.contains "file_hash" = true → infer_file_hash obj = none →
      build_record_key cols obj cliIsJson cliPath
        = .error "final JSON has no hash_sha256/file_hash usable for file_hash") ∧
    (∀ h, cols.contains "file_hash" = true → infer_file_hash obj = some h →
      ¬(cols.contains "file_path" = true ∧
          infer_file_path obj cliIsJson cliPath = none) →
      build_record_key cols obj cliIsJson cliPath = .ok ("file_hash", h)) ∧
    (∀ p, cols.contains "file_hash" = false → cols.contains "file_path" = true →
      infer_file_path obj cliIsJson cliPath = some p →
      build_record_key cols obj cliIsJson cliPath = .ok ("file_path", p)) ∧
    (cols.contains "file_hash" = false → cols.contains "file_path" = false →
      build_record_key cols obj cliIsJson cliPath
        = .error "no upsert key (neither file_hash nor file_path available)") ∧
    (∀ (V : Type) [DecidableEq V] (t : DbTable V) (data : DbRow V)
        (strVal : String → V) (now : V) (dry : Bool) (e : String),
      build_record_key cols obj cliIsJson cliPath = .error e →
      (load_track t data cols obj cliIsJson cliPath strVal now dry).1 = t) := by
  refine ⟨?_, ?_, ?_, ?_, ?_⟩
  · intro hc hh
    have hc' : "file_hash" ∈ cols := by simpa using hc
    rw [build_record_key]
    simp [hc', hh]
  · intro h hc hh hnp
    have hc' : "file_hash" ∈ cols := by simpa using hc
    have hnp' : ¬("file_path" ∈ cols ∧
        infer_file_path obj cliIsJson cliPath = none) := fun hx =>
      hnp ⟨by simpa using hx.1, hx.2⟩
    rw [build_record_key]
    simp [hc', hh, hnp']
  · intro p hc hcp hp
    have hc0 : "file_hash" ∉ cols := by simpa using hc
    have hcp' : "file_path" ∈ cols := by simpa using hcp
    rw [build_record_key]
    simp [hc0, hcp', hp]
  · intro hc hcp
    have hc0 : "file_hash" ∉ cols := by simpa using hc
    have hcp0 : "file_path" ∉ cols := by simpa using hcp
    rw [build_record_key]
    simp [hc0, hcp0]
  · intro V _ t data strVal now dry e he
    rw [load_track, he]

/-- Witness for C4 (amended): a table with only the path column upserts by
file path. -/
theorem c4_witness :
    build_record_key ["file_path"] [] false "/y.mp3" = .ok ("file_path", "/y.mp3") :=
  (c4_upsert_key_priority ["file_path"] [] false "/y.mp3").2.2.1 "/y.mp3"
    rfl rfl rfl

/-! ## Orchestrator lemmas and claims C2, C6 -/

theorem matchStage_stopped (flags : Flags) (w : TrackWorld) (st : PipeState)
    (h : st.stopped = true) : matchStage flags w st = st := by
  rw [matchStage, if_pos h]

theorem audioStage_stopped (flags : Flags) (w : TrackWorld) (st : PipeState)
    (h : st.stopped = true) : audioStage flags w st = st := by
  rw [audioStage, if_pos h]

theorem mergeStage_stopped (flags : Flags) (w : TrackWorld) (st : PipeState)
    (h : st.stopped = true) : mergeStage flags w st = st := by
  rw [mergeStage, if_pos h]

theorem loadStage_stopped (flags : Flags) (w : TrackWorld) (st : PipeState)
    (h : st.stopped = true) : loadStage flags w st = st := by
  rw [loadStage, if_pos h]

theorem matchStage_no_raise (flags : Flags) (w : TrackWorld)
    (h : stageRaises flags w .smatch = none) :
    (matchStage flags w (initSt w)).stopped = false ∧
    (matchStage flags w (initSt w)).res.failedStage = none ∧
    (matchStage flags w (initSt w)).fs.analysisJson = w.fs.analysisJson ∧
    (matchStage flags w (initSt w)).fs.finalJson = w.fs.finalJson ∧
    (∀ x ∈ (matchStage flags w (initSt w)).ran, x = Stage.smatch) := by
  rw [stageRaises] at h
  rw [matchStage]
  rw [if_neg (show ¬((initSt w).stopped = true) from by rw [initSt]; simp)]
  by_cases hskip : flags.skipMatch = true
  · rw [if_pos hskip]
    exact ⟨rfl, rfl, rfl, rfl, by intro x hx; simp [initSt] at hx⟩
  · rw [if_neg hskip]
    by_cases hneed : needMatch flags w.fs = true
    · rw [show needMatch flags (initSt w).fs = needMatch flags w.fs from rfl,
        if_pos hneed]
      by_cases hdry : flags.dryRun = true
      · rw [if_pos hdry]
        refine ⟨rfl, rfl, rfl, rfl, ?_⟩
        intro x hx
        simp [initSt] at hx
        exact hx
      · rw [if_neg hdry]
        cases hrun : w.matchRun with
        | ok u =>
          refine ⟨rfl, rfl, rfl, rfl, ?_⟩
          intro x hx
          simp [initSt] at hx
          exact hx
        | error e =>
          exfalso
          rw [Bool.not_eq_true] at hskip hdry
          rw [if_pos (by simp [hskip, hneed, hdry]), hrun] at h
          exact absurd h (by simp)
    · rw [show needMatch flags (initSt w).fs = needMatch flags w.fs from rfl,
        if_neg hneed]
      exact ⟨rfl, rfl, rfl, rfl, by intro x hx; simp [initSt] at hx⟩

theorem audioStage_no_raise (flags : Flags) (w : TrackWorld) (st : PipeState)
    (h : stageRaises flags w .saudio = none)
    (hstop : st.stopped = false)
    (hfail : st.res.failedStage = none)
    (hana : st.fs.analysisJson = w.fs.analysisJson)
    (hfin : st.fs.finalJson = w.fs.finalJson)
    (hran : ∀ x ∈ st.ran, x = Stage.smatch) :
    (audioStage flags w st).stopped = false ∧
    (audioStage flags w st).res.failedStage = none ∧
    (audioStage flags w st).fs.finalJson = w.fs.finalJson ∧
    (∀ x ∈ (audioStage flags w st).ran,
      x = Stage.smatch ∨ x = Stage.saudio) := by
  rw [stageRaises] at h
  rw [audioStage]
  rw [if_neg (by rw [hstop]; simp)]
  have hneedeq : needAudio flags st.fs = needAudio flags w.fs := by
    rw [needAudio, needAudio, hana]
  by_cases hskip : flags.skipAudio = true
  · rw [if_pos hskip]
    exact ⟨hstop, hfail, hfin, fun x hx => Or.inl (hran x hx)⟩
  · rw [if_neg hskip]
    by_cases hneed : needAudio flags w.fs = true
    · rw [hneedeq, if_pos hneed]
      by_cases hdry : flags.dryRun = true
      · rw [if_pos hdry]
        refine ⟨hstop, hfail, hfin, ?_⟩
        intro x hx
        simp at hx
        rcases hx with hx | hx
        · exact Or.inl (hran x hx)
        · exact Or.inr hx
      · rw [if_neg hdry]
        cases hrun : w.audioRun with
        | ok u =>
          refine ⟨hstop, hfail, hfin, ?_⟩
          intro x hx
          simp at hx
          rcases hx with hx | hx
          · exact Or.inl (hran x hx)
          · exact Or.inr hx
        | error e =>
          exfalso
          rw [Bool.not_eq_true] at hskip hdry
          rw [if_pos (by simp [hskip, hneed, hdry]), hrun] at h
          exact absurd h (by simp)
    · rw [hneedeq, if_neg hneed]
      exact ⟨hstop, hfail, hfin, fun x hx => Or.inl (hran x hx)⟩

theorem mergeStage_no_raise (flags : Flags) (w : TrackWorld) (st : PipeState)
    (h : stageRaises flags w .smerge = none)
    (hstop : st.stopped = false)
    (hfail : st.res.failedStage = none)
    (hfin : st.fs.finalJson = w.fs.finalJson)
    (hran : ∀ x ∈ st.ran, x = Stage.smatch ∨ x = Stage.saudio) :
    (mergeStage flags w st).stopped = false ∧
    (mergeStage flags w st).res.failedStage = none ∧
    (mergeStage flags w st).fs.finalJson = finalAfterMerge flags w ∧
    (∀ x ∈ (mergeStage flags w st).ran,
      x = Stage.smatch ∨ x = Stage.saudio ∨ x = Stage.smerge) := by
  rw [stageRaises] at h
  rw [mergeStage]
  rw [if_neg (by rw [hstop]; simp)]
  have hneedeq : needMerge flags st.fs = needMerge flags w.fs := by
    rw [needMerge, needMerge, hfin]
  by_cases hskip : flags.skipMerge = true
  · rw [if_pos hskip]
    refine ⟨hstop, hfail, ?_, fun x hx => (hran x hx).imp id Or.inl⟩
    rw [hfin, finalAfterMerge, if_neg (by simp [hskip])]
  · rw [if_neg hskip]
    by_cases hneed : needMerge flags w.fs = true
    · rw [hneedeq, if_pos hneed]
      by_cases hdry : flags.dryRun = true
      · rw [if_pos hdry]
        refine ⟨hstop, hfail, ?_, ?_⟩
        · rw [hfin, finalAfterMerge, if_neg (by simp [hdry])]
        · intro x hx
          simp at hx
          rcases hx with hx | hx
          · exact (hran x hx).imp id Or.inl
          · exact Or.inr (Or.inr hx)
      · rw [if_neg hdry]
        rw [Bool.not_eq_true] at hskip hdry
        cases hrun : w.mergeRun with
        | ok wrote =>
          refine ⟨hstop, hfail, ?_, ?_⟩
          · rw [finalAfterMerge, if_pos (by simp [hskip, hneed, hdry]), hrun]
            cases wrote with
            | true => simp [hfin]
            | false => simp [hfin]
          · intro x hx
            simp at hx
            rcases hx with hx | hx
            · exact (hran x hx).imp id Or.inl
            · exact Or.inr (Or.inr hx)
        | error e =>
          exfalso
          rw [if_pos (by simp [hskip, hneed, hdry]), hrun] at h
          exact absurd h (by simp)
    · rw [hneedeq, if_neg hneed]
      refine ⟨hstop, hfail, ?_, fun x hx => (hran x hx).imp id Or.inl⟩
      rw [hfin, finalAfterMerge]
      rw [Bool.not_eq_true] at hneed
      rw [if_neg (by simp [hneed])]

theorem matchStage_raises (flags : Flags) (w : TrackWorld) (msg : String)
    (h : stageRaises flags w .smatch = some msg) :
    matchStage flags w (initSt w)
      = { res :=
            { matched := false, analyzed := false, merged := false,
              loaded := false, failedStage := some "MATCH",
              errMsg := some msg },
          fs := w.fs, ran := [Stage.smatch], stopped := true } := by
  rw [stageRaises] at h
  by_cases hcond :
      (!flags.skipMatch && needMatch flags w.fs && !flags.dryRun) = true
  · rw [if_pos hcond] at h
    have hc : flags.skipMatch = false ∧ needMatch flags w.fs = true ∧
        flags.dryRun = false := by
      simpa [Bool.and_eq_true, and_assoc] using hcond
    cases hrun : w.matchRun with
    | ok u =>
      rw [hrun] at h
      exact absurd h (by simp)
    | error e =>
      rw [hrun] at h
      have he : e = msg := by simpa using h
      subst he
      rw [matchStage,
        if_neg (show ¬((initSt w).stopped = true) from by rw [initSt]; simp),
        if_neg (by simp [hc.1]),
        show needMatch flags (initSt w).fs = needMatch flags w.fs from rfl,
        if_pos hc.2.1, if_neg (by simp [hc.2.2]), hrun]
      rfl
  · rw [if_neg hcond] at h
    exact absurd h (by simp)

theorem audioStage_raises (flags : Flags) (w : TrackWorld) (st : PipeState)
    (msg : String)
    (h : stageRaises flags w .saudio = some msg)
    (hstop : st.stopped = false)
    (hana : st.fs.analysisJson = w.fs.analysisJson) :
    audioStage flags w st
      = { res :=
            { st.res with failedStage := some "AUDIO", errMsg := some msg },
          fs := st.fs, ran := st.ran ++ [Stage.saudio], stopped := true } := by
  rw [stageRaises] at h
  by_cases hcond :
      (!flags.skipAudio && needAudio flags w.fs && !flags.dryRun) = true
  · rw [if_pos hcond] at h
    have hc : flags.skipAudio = false ∧ needAudio flags w.fs = true ∧
        flags.dryRun = false := by
      simpa [Bool.and_eq_true, and_assoc] using hcond
    cases hrun : w.audioRun with
    | ok u =>
      rw [hrun] at h
      exact absurd h (by simp)
    | error e =>
      rw [hrun] at h
      have he : e = msg := by simpa using h
      subst he
      rw [audioStage, if_neg (by rw [hstop]; simp), if_neg (by simp [hc.1]),
        show needAudio flags st.fs = needAudio flags w.fs from by
          rw [needAudio, needAudio, hana],
        if_pos hc.2.1, if_neg (by simp [hc.2.2]), hrun]
  · rw [if_neg hcond] at h
    exact absurd h (by simp)

theorem mergeStage_raises (flags : Flags) (w : TrackWorld) (st : PipeState)
    (msg : String)
    (h : stageRaises flags w .smerge = some msg)
    (hstop : st.stopped = false)
    (hfin : st.fs.finalJson = w.fs.finalJson) :
    mergeStage flags w st
      = { res :=
            { st.res with failedStage := some "MERGE", errMsg := some msg },
          fs := st.fs, ran := st.ran ++ [Stage.smerge], stopped := true } := by
  rw [stageRaises] at h
  by_cases hcond :
      (!flags.skipMerge && needMerge flags w.fs && !flags.dryRun) = true
  · rw [if_pos hcond] at h
    have hc : flags.skipMerge = false ∧ needMerge flags w.fs = true ∧
        flags.dryRun = false := by
      simpa [Bool.and_eq_true, and_assoc] using hcond
    cases hrun : w.mergeRun with
    | ok wrote =>
      rw [hrun] at h
      exact absurd h (by simp)
    | error e =>
      rw [hrun] at h
      have he : e = msg := by simpa using h
      subst he
      rw [mergeStage, if_neg (by rw [hstop]; simp), if_neg (by simp [hc.1]),
        show needMerge flags st.fs = needMerge flags w.fs from by
          rw [needMerge, needMerge, hfin],
        if_pos hc.2.1, if_neg (by simp [hc.2.2]), hrun]
  · rw [if_neg hcond] at h
    exact absurd h (by simp)

theorem loadStage_raises (flags : Flags) (w : TrackWorld) (st : PipeState)
    (msg : String)
    (h : stageRaises flags w .sload = some msg)
    (hstop : st.stopped = false)
    (hfin : st.fs.finalJson = finalAfterMerge flags w) :
    loadStage flags w st
      = { res :=
            { st.res with failedStage := some "LOAD", errMsg := some msg },
          fs := st.fs, ran := st.ran ++ [Stage.sload], stopped := true } := by
  rw [stageRaises] at h
  by_cases hcond :
      (!flags.skipLoad && (finalAfterMerge flags w).isSome && !flags.dryRun)
        = true
  · rw [if_pos hcond] at h
    have hc : flags.skipLoad = false ∧ (finalAfterMerge flags w).isSome = true ∧
        flags.dryRun = false := by
      simpa [Bool.and_eq_true, and_assoc] using hcond
    cases hrun : w.loadRun with
    | ok u =>
      rw [hrun] at h
      exact absurd h (by simp)
    | error e =>
      rw [hrun] at h
      have he : e = msg := by simpa using h
      subst he
      rw [loadStage, if_neg (by rw [hstop]; simp), if_neg (by simp [hc.1]),
        show st.fs.finalJson.isSome = (finalAfterMerge flags w).isSome from by
          rw [hfin],
        if_pos hc.2.1, if_neg (by simp [hc.2.2]), hrun]
  · rw [if_neg hcond] at h
    exact absurd h (by simp)

theorem mergeStage_ran (flags : Flags) (w : TrackWorld) (st : PipeState)
    (hstop : st.stopped = false) (hskip : flags.skipMerge = false) :
    (mergeStage flags w st).ran
      = if needMerge flags st.fs then st.ran ++ [Stage.smerge] else st.ran := by
  rw [mergeStage, if_neg (by rw [hstop]; simp), if_neg (by simp [hskip])]
  by_cases hneed : needMerge flags st.fs = true
  · rw [if_pos hneed, if_pos hneed]
    by_cases hdry : flags.dryRun = true
    · rw [if_pos hdry]
    · rw [if_neg hdry]
      cases w.mergeRun <;> rfl
  · rw [if_neg hneed, if_neg hneed]

theorem loadStage_ran (flags : Flags) (w : TrackWorld) (st : PipeState) :
    (loadStage flags w st).ran = st.ran ∨
    (loadStage flags w st).ran = st.ran ++ [Stage.sload] := by
  rw [loadStage]
  by_cases h1 : st.stopped = true
  · rw [if_pos h1]
    exact Or.inl rfl
  · rw [if_neg h1]
    by_cases h2 : flags.skipLoad = true
    · rw [if_pos h2]
      exact Or.inl rfl
    · rw [if_neg h2]
      by_cases h3 : st.fs.finalJson.isSome = true
      · rw [if_pos h3]
        by_cases h4 : flags.dryRun = true
        · rw [if_pos h4]
          exact Or.inr rfl
        · rw [if_neg h4]
          cases w.loadRun <;> exact Or.inr rfl
      · rw [if_neg h3]
        exact Or.inl rfl

/-- C2 counterexample: a track whose final sidecar (mtime 2) is strictly
older than its analysis sidecar (mtime 5) is NOT re-merged on a pass with no
force flags: the claimed staleness disjunct does not exist in the code. -/
theorem c2_stale_final_not_remerged :
    staleFinalWorld.fs.finalJson = some 2 ∧
    staleFinalWorld.fs.analysisJson = some 5 ∧
    ((2 : ℚ) < 5) ∧
    ({} : Flags).forceMerge = false ∧
    Stage.smerge ∉ (process_track {} staleFinalWorld).ran := by
  refine ⟨rfl, rfl, by norm_num, rfl, by decide⟩

/-- C2 (amended): with MERGE not skipped and the earlier stages not failing,
the orchestrator runs the MERGE stage exactly when force_merge is set or the
final sidecar is absent; sidecar modification times are never consulted (the
equivalence holds for every assignment of mtimes). -/
theorem c2_merge_runs_iff_forced_or_absent (flags : Flags) (w : TrackWorld)
    (hskip : flags.skipMerge = false)
    (hm : stageRaises flags w .smatch = none)
    (ha : stageRaises flags w .saudio = none) :
    Stage.smerge ∈ (process_track flags w).ran
      ↔ (flags.forceMerge = true ∨ w.fs.finalJson = none) := by
  obtain ⟨m1, m2, m3, m4, m5⟩ := matchStage_no_raise flags w hm
  obtain ⟨a1, a2, a3, a4⟩ := audioStage_no_raise flags w _ ha m1 m2 m3 m4 m5
  rw [process_track]
  set st₂ := audioStage flags w (matchStage flags w (initSt w)) with hst₂
  have hneedeq : needMerge flags st₂.fs = needMerge flags w.fs := by
    rw [needMerge, needMerge, a3]
  have hmr := mergeStage_ran flags w st₂ a1 hskip
  rw [hneedeq] at hmr
  have hiff : needMerge flags w.fs = true
      ↔ (flags.forceMerge = true ∨ w.fs.finalJson = none) := by
    rw [needMerge, Bool.or_eq_true]
    constructor
    · rintro (hf | hf)
      · exact Or.inl hf
      · exact Or.inr (by simpa using hf)
    · rintro (hf | hf)
      · exact Or.inl hf
      · exact Or.inr (by simp [hf])
  by_cases hneed : needMerge flags w.fs = true
  · rw [if_pos hneed] at hmr
    rcases loadStage_ran flags w (mergeStage flags w st₂) with hlr | hlr <;>
      rw [hlr, hmr] <;> simp [hiff.mp hneed]
  · rw [if_neg hneed] at hmr
    have hnotin : Stage.smerge ∉ st₂.ran := by
      intro hmem
      rcases a4 _ hmem with hx | hx <;> exact absurd hx (by decide)
    rcases loadStage_ran flags w (mergeStage flags w st₂) with hlr | hlr <;>
      rw [hlr, hmr]
    · constructor
      · intro hmem
        exact absurd hmem hnotin
      · intro hf
        exact absurd (hiff.mpr hf) hneed
    · constructor
      · intro hmem
        rw [List.mem_append] at hmem
        rcases hmem with hmem | hmem
        · exact absurd hmem hnotin
        · simp at hmem
      · intro hf
        exact absurd (hiff.mpr hf) hneed

/-- Witness for C2 (amended) at a concrete track whose sidecars all exist:
without force flags MERGE does not run, matching the equivalence. -/
theorem c2_witness :
    Stage.smerge ∈ (process_track {} staleFinalWorld).ran
      ↔ (({} : Flags).forceMerge = true ∨ staleFinalWorld.fs.finalJson = none) :=
  c2_merge_runs_iff_forced_or_absent {} staleFinalWorld rfl rfl rfl

/-- C6: when the first stage that raises for a track is s (the stages before
it do not raise), the track's result records s as the failed stage together
with the raised message, s itself ran but no stage downstream of s ran in
this pass, and the pass processes every other track of the walk unchanged. -/
theorem c6_stage_failure_isolates_track (flags : Flags) (w : TrackWorld)
    (s : Stage) (msg : String)
    (hpre : ∀ s', stageIdx s' < stageIdx s → stageRaises flags w s' = none)
    (hs : stageRaises flags w s = some msg) :
    (process_track flags w).res.failedStage = some (stageName s) ∧
    (process_track flags w).res.errMsg = some msg ∧
    s ∈ (process_track flags w).ran ∧
    (∀ s', stageIdx s < stageIdx s' → s' ∉ (process_track flags w).ran) ∧
    (∀ pre post : List TrackWorld,
      runPass flags (pre ++ w :: post)
        = runPass flags pre ++ (process_track flags w).res :: runPass flags post) := by
  have hcont : ∀ pre post : List TrackWorld,
      runPass flags (pre ++ w :: post)
        = runPass flags pre ++ (process_track flags w).res :: runPass flags post := by
    intro pre post
    simp [runPass]
  cases s with
  | smatch =>
    have hpt : process_track flags w
        = { res :=
              { matched := false, analyzed := false, merged := false,
                loaded := false, failedStage := some "MATCH",
                errMsg := some msg },
            fs := w.fs, ran := [Stage.smatch], stopped := true } := by
      rw [process_track, matchStage_raises flags w msg hs,
        audioStage_stopped _ _ _ rfl, mergeStage_stopped _ _ _ rfl,
        loadStage_stopped _ _ _ rfl]
    refine ⟨by simp [hpt, stageName], by simp [hpt], by simp [hpt], ?_, hcont⟩
    intro s' hlt hmem
    rw [hpt] at hmem
    simp at hmem
    subst hmem
    simp [stageIdx] at hlt
  | saudio =>
    have hm := hpre Stage.smatch (by simp [stageIdx])
    obtain ⟨m1, m2, m3, m4, m5⟩ := matchStage_no_raise flags w hm
    have e := audioStage_raises flags w (matchStage flags w (initSt w)) msg hs m1 m3
    set st₁ := matchStage flags w (initSt w) with hst₁
    have hpt : process_track flags w
        = { res :=
              { st₁.res with failedStage := some "AUDIO", errMsg := some msg },
            fs := st₁.fs, ran := st₁.ran ++ [Stage.saudio], stopped := true } := by
      rw [process_track, ← hst₁, e, mergeStage_stopped _ _ _ rfl,
        loadStage_stopped _ _ _ rfl]
    refine ⟨by simp [hpt, stageName], by simp [hpt], by simp [hpt], ?_, hcont⟩
    intro s' hlt hmem
    rw [hpt] at hmem
    simp at hmem
    rcases hmem with hmem | hmem
    · rw [m5 s' hmem] at hlt
      simp [stageIdx] at hlt
    · subst hmem
      simp [stageIdx] at hlt
  | smerge =>
    have hm := hpre Stage.smatch (by simp [stageIdx])
    have ha := hpre Stage.saudio (by simp [stageIdx])
    obtain ⟨m1, m2, m3, m4, m5⟩ := matchStage_no_raise flags w hm
    obtain ⟨a1, a2, a3, a4⟩ := audioStage_no_raise flags w _ ha m1 m2 m3 m4 m5
    set st₂ := audioStage flags w (matchStage flags w (initSt w)) with hst₂
    have e := mergeStage_raises flags w st₂ msg hs a1 a3
    have hpt : process_track flags w
        = { res :=
              { st₂.res with failedStage := some "MERGE", errMsg := some msg },
            fs := st₂.fs, ran := st₂.ran ++ [Stage.smerge], stopped := true } := by
      rw [process_track, ← hst₂, e, loadStage_stopped _ _ _ rfl]
    refine ⟨by simp [hpt, stageName], by simp [hpt], by simp [hpt], ?_, hcont⟩
    intro s' hlt hmem
    rw [hpt] at hmem
    simp at hmem
    rcases hmem with hmem | hmem
    · rcases a4 s' hmem with hx | hx <;> (rw [hx] at hlt; simp [stageIdx] at hlt)
    · subst hmem
      simp [stageIdx] at hlt
  | sload =>
    have hm := hpre Stage.smatch (by simp [stageIdx])
    have ha := hpre Stage.saudio (by simp [stageIdx])
    have hmg := hpre Stage.smerge (by simp [stageIdx])
    obtain ⟨m1, m2, m3, m4, m5⟩ := matchStage_no_raise flags w hm
    obtain ⟨a1, a2, a3, a4⟩ := audioStage_no_raise flags w _ ha m1 m2 m3 m4 m5
    obtain ⟨g1, g2, g3, g4⟩ := mergeStage_no_raise flags w _ hmg a1 a2 a3 a4
    set st₃ := mergeStage flags w (audioStage flags w (matchStage flags w (initSt w)))
      with hst₃
    have e := loadStage_raises flags w st₃ msg hs g1 g3
    have hpt : process_track flags w
        = { res :=
              { st₃.res with failedStage := some "LOAD", errMsg := some msg },
            fs := st₃.fs, ran := st₃.ran ++ [Stage.sload], stopped := true } := by
      rw [process_track, ← hst₃, e]
    refine ⟨by simp [hpt, stageName], by simp [hpt], by simp [hpt], ?_, hcont⟩
    intro s' hlt hmem
    cases s' <;> simp [stageIdx] at hlt

/-- Witness for C6 at a concrete fresh track whose AUDIO (analyze) runner
raises: AUDIO is recorded as the failed stage with the message, and neither
MERGE nor LOAD runs. -/
theorem c6_witness :
    (process_track {} audioFailWorld).res.failedStage = some (stageName .saudio) ∧
    (process_track {} audioFailWorld).res.errMsg = some "analyzer crashed" ∧
    Stage.saudio ∈ (process_track {} audioFailWorld).ran ∧
    Stage.smerge ∉ (process_track {} audioFailWorld).ran ∧
    Stage.sload ∉ (process_track {} audioFailWorld).ran := by
  have h := c6_stage_failure_isolates_track {} audioFailWorld .saudio
    "analyzer crashed"
    (fun s' hlt => by cases s' <;> first | rfl | simp [stageIdx] at hlt) rfl
  exact ⟨h.1, h.2.1, h.2.2.1, h.2.2.2.1 .smerge (by simp [stageIdx]),
    h.2.2.2.1 .sload (by simp [stageIdx])⟩

end MusicOrg
